import Mathlib

/-!
# Verification of the go-jira serialization core

A shallow embedding of the query-string encoder (`paramsToQuery`,
`formatSlice`, tag helpers, `esc`), the custom `Date` JSON decoder and the
`IssueFields` / `CustomFieldsStore` JSON decoding logic of the go-jira
library, together with theorems settling the specification claims.

Go strings are modelled as byte lists (`GoStr := List Nat`), matching Go's
byte-oriented string operations (slicing, `url.QueryEscape`, `strings.Trim`).
-/

set_option maxRecDepth 10000

namespace GoJira

/-- Go strings are byte sequences. -/
abbrev GoStr := List Nat

/-- Byte sequence of an ASCII Lean string literal (used for concrete inputs). -/
def gs (s : String) : GoStr := s.data.map Char.toNat

/-- Supported option `unwrap` (src/utils.go `_OPTION_UNWRAP`). -/
def _OPTION_UNWRAP : GoStr := gs "unwrap"

/-- Supported option `respect` (src/utils.go `_OPTION_RESPECT`). -/
def _OPTION_RESPECT : GoStr := gs "respect"

/-- Supported option `reverse` (src/utils.go `_OPTION_REVERSE`). -/
def _OPTION_REVERSE : GoStr := gs "reverse"

/-- `hasTagOption` from src/utils.go: `strings.Contains(tag, ",")` and the
text after the first comma compared with the option. -/
def hasTagOption (tag option : GoStr) : Bool :=
  match tag.findIdx? (· = 44) with
  | none => false
  | some i => tag.drop (i + 1) = option

/-- `getTagName` from src/utils.go: the text before the first comma, or the
whole tag when it has no comma. -/
def getTagName (tag : GoStr) : GoStr :=
  match tag.findIdx? (· = 44) with
  | none => tag
  | some i => tag.take i

/-- Bytes Go's `url.QueryEscape` leaves unescaped: ASCII alphanumerics and
`-`, `_`, `.`, `~`. -/
def isUnreservedQ (c : Nat) : Bool :=
  (97 ≤ c && c ≤ 122) || (65 ≤ c && c ≤ 90) || (48 ≤ c && c ≤ 57) ||
  c = 45 || c = 95 || c = 46 || c = 126

/-- Uppercase hexadecimal digit byte for a value below 16. -/
def hexUpper (n : Nat) : Nat :=
  if n < 10 then 48 + n else 55 + n

/-- Escaping of one byte by Go's `url.QueryEscape`: unreserved bytes pass
through, space becomes `+`, everything else becomes `%XX`. -/
def escByte (c : Nat) : GoStr :=
  if isUnreservedQ c then [c]
  else if c = 32 then [43]
  else [37, hexUpper (c / 16), hexUpper (c % 16)]

/-- `esc` from src/utils.go, i.e. Go's `url.QueryEscape`. -/
def esc (s : GoStr) : GoStr := s.flatMap escByte

/-- Percent-decoding (Go's `url.QueryUnescape` on well-formed input):
`%XX` becomes the byte `XX`, `+` becomes space, other bytes pass through. -/
def hexVal (c : Nat) : Nat :=
  if 48 ≤ c ∧ c ≤ 57 then c - 48
  else if 65 ≤ c ∧ c ≤ 70 then c - 55
  else if 97 ≤ c ∧ c ≤ 102 then c - 87
  else 0

/-- Inverse of `esc` on its image (percent-unescaping). -/
def unesc : GoStr → GoStr
  | [] => []
  | [c] => if c = 43 then [32] else [c]
  | [c, c2] => if c = 43 then 32 :: unesc [c2] else c :: unesc [c2]
  | c :: c2 :: c3 :: rest =>
      if c = 37 then (hexVal c2 * 16 + hexVal c3) :: unesc rest
      else if c = 43 then 32 :: unesc (c2 :: c3 :: rest)
      else c :: unesc (c2 :: c3 :: rest)

/-- `formatSlice` from src/utils.go. The final `result[:len(result)-1]`
panics on an empty accumulator, modelled by `none`. -/
def formatSlice (tag : GoStr) (s : List GoStr) : Option GoStr :=
  let name := getTagName tag
  let unwrap := hasTagOption tag _OPTION_UNWRAP
  let init : GoStr := if !unwrap then name ++ gs "=" else []
  let result := s.foldl
    (fun r v => r ++ (if unwrap then name ++ gs "=" ++ esc v ++ gs "&"
                      else esc v ++ gs ",")) init
  if result = [] then none else some result.dropLast

/-- The `time.Time` data the encoder consumes: the calendar fields it
formats and whether the value is the zero instant. -/
structure GoTime where
  year : Nat
  month : Nat
  day : Nat
  isZero : Bool
  deriving DecidableEq, Repr

/-- Decimal digits of a natural number (Go's `%d` for non-negative values). -/
def natToBytes (n : Nat) : GoStr := (toString n).data.map Char.toNat

/-- Go's `%02d`: zero-pad to two digits. -/
def pad2 (n : Nat) : GoStr :=
  if n < 10 then 48 :: natToBytes n else natToBytes n

/-- `fmt.Sprintf("%d-%02d-%02d", d.Year(), d.Month(), d.Day())`. -/
def fmtDate (t : GoTime) : GoStr :=
  natToBytes t.year ++ gs "-" ++ pad2 t.month ++ gs "-" ++ pad2 t.day

/-- The five semantic field types `paramsToQuery` dispatches on
(`value.Type().String()` in src/utils.go). -/
inductive FieldValue where
  | str (s : GoStr)
  | int (i : Int)
  | bool (b : Bool)
  | time (t : GoTime)
  | strList (l : List GoStr)
  deriving DecidableEq

/-- Decimal text of a Go `int` (`fmt.Sprintf("%d", value.Int())`). -/
def intToBytes (i : Int) : GoStr := (toString i).data.map Char.toNat

/-- Text one field appends to the accumulator in `paramsToQuery`'s loop
(src/utils.go lines 41-78); `none` models a panic inside `formatSlice`,
`some []` a field that emits nothing. -/
def fieldChunk (tag : GoStr) : FieldValue → Option GoStr
  | .str s =>
      some (if s ≠ [] then tag ++ gs "=" ++ esc s ++ gs "&"
            else if hasTagOption tag _OPTION_RESPECT then getTagName tag ++ gs "=&"
            else [])
  | .int i =>
      some (if i ≠ 0 then tag ++ gs "=" ++ intToBytes i ++ gs "&"
            else if hasTagOption tag _OPTION_RESPECT then getTagName tag ++ gs "=0&"
            else [])
  | .bool b =>
      some (if hasTagOption tag _OPTION_REVERSE && b then getTagName tag ++ gs "=false&"
            else if b then getTagName tag ++ gs "=true&"
            else if hasTagOption tag _OPTION_RESPECT then getTagName tag ++ gs "=false&"
            else [])
  | .time t =>
      some (if !t.isZero then tag ++ gs "=" ++ fmtDate t ++ gs "&" else [])
  | .strList l =>
      if l.length > 0 then (formatSlice tag l).map (· ++ gs "&") else some []

/-- The accumulation loop of `paramsToQuery`. -/
def paramsToQueryAux (acc : GoStr) : List (GoStr × FieldValue) → Option GoStr
  | [] => some acc
  | f :: rest =>
      match fieldChunk f.1 f.2 with
      | none => none
      | some c => paramsToQueryAux (acc ++ c) rest

/-- `paramsToQuery` from src/utils.go: run the loop over all fields, return
`""` on an empty accumulator, otherwise trim the trailing `&`. -/
def paramsToQuery (fields : List (GoStr × FieldValue)) : Option GoStr :=
  match paramsToQueryAux [] fields with
  | none => none
  | some result => if result = [] then some [] else some result.dropLast

end GoJira

namespace GoJira

example : paramsToQuery [(gs "expand", .strList [gs "test1,test2"])] =
    some (gs "expand=test1%2Ctest2") := by decide

example : paramsToQuery
    [(gs "query", .str (gs "ABCD")),
     (gs "showSubTasks,respect", .bool true),
     (gs "showSubTaskParent,respect", .bool false)] =
    some (gs "query=ABCD&showSubTasks=true&showSubTaskParent=false") := by decide

example : paramsToQuery
    [(gs "projectId,unwrap", .strList [gs "1", gs "2"]),
     (gs "query", .str (gs "ABCD")),
     (gs "showAvatar", .bool true)] =
    some (gs "projectId=1&projectId=2&query=ABCD&showAvatar=true") := by decide

example : paramsToQuery
    [(gs "expand", .strList [gs "test1,test2"]),
     (gs "jql", .str (gs "ABCD")),
     (gs "startAt", .int 1),
     (gs "validateQuery,reverse", .bool true)] =
    some (gs "expand=test1%2Ctest2&jql=ABCD&startAt=1&validateQuery=false") := by decide

end GoJira

namespace GoJira

/-! ## readField (src/utils.go) -/

/-- Loop body of `readField`: walks the bytes with the current byte index,
the running field index `curIndex` and the slice start `startPointer`
(both `-1` initially, as in the source). -/
def readFieldGo (data : GoStr) (index : Int) (sep : Nat) :
    List Nat → Nat → Int → Int → GoStr
  | [], _, curIndex, startPointer =>
      if index > curIndex then []
      else (data.drop startPointer.toNat)
  | r :: rest, i, curIndex, startPointer =>
      if r = sep then
        if curIndex = index then (data.drop startPointer.toNat).take (i - startPointer.toNat)
        else readFieldGo data index sep rest (i + 1) (curIndex + 1) (i + 1)
      else if startPointer = -1 then readFieldGo data index sep rest (i + 1) (curIndex + 1) (i : Int)
      else readFieldGo data index sep rest (i + 1) curIndex startPointer

/-- `readField` from src/utils.go: the `index`-th `sep`-separated field. -/
def readField (data : GoStr) (index : Int) (sep : Nat) : GoStr :=
  if data = [] ∨ index < 0 then []
  else readFieldGo data index sep data 0 (-1) (-1)

end GoJira

namespace GoJira

/-! ## Date.UnmarshalJSON (src/api.go lines 969-983), modelling Go's
`time.Parse` for the two layouts `2006-01-02T15:04:05-0700` and
`2006-01-02`. -/

/-- ASCII digit test (Go's `isDigit`). -/
def isDigitB (c : Nat) : Bool := 48 ≤ c && c ≤ 57

/-- Go's `getnum`: one or two digits; `fixed` requires exactly two. -/
def getnum (fixed : Bool) (s : GoStr) : Option (Nat × GoStr) :=
  match s with
  | [] => none
  | [c1] =>
      if isDigitB c1 then (if fixed then none else some (c1 - 48, [])) else none
  | c1 :: c2 :: rest =>
      if !isDigitB c1 then none
      else if !isDigitB c2 then (if fixed then none else some (c1 - 48, c2 :: rest))
      else some ((c1 - 48) * 10 + (c2 - 48), rest)

/-- Go's `stdLongYear`: exactly four digits. -/
def getYear4 (s : GoStr) : Option (Nat × GoStr) :=
  match s with
  | a :: b :: c :: d :: rest =>
      if isDigitB a && isDigitB b && isDigitB c && isDigitB d then
        some ((((a - 48) * 10 + (b - 48)) * 10 + (c - 48)) * 10 + (d - 48), rest)
      else none
  | _ => none

/-- Consume one expected literal layout byte. -/
def expectByte (c : Nat) (s : GoStr) : Option GoStr :=
  match s with
  | [] => none
  | c' :: rest => if c' = c then some rest else none

/-- After the seconds element Go accepts an unasked-for fractional part:
a period or comma followed by at least one digit consumes all digits. -/
def dropFrac (s : GoStr) : GoStr :=
  match s with
  | c :: d :: rest =>
      if (c = 46 || c = 44) && isDigitB d then (d :: rest).dropWhile isDigitB else s
  | _ => s

/-- Go's `stdNumTZ` (`-0700`): a `+` or `-` sign and four digits. -/
def parseZone (s : GoStr) : Option GoStr :=
  match s with
  | sg :: a :: b :: c :: d :: rest =>
      if (sg = 43 || sg = 45) && isDigitB a && isDigitB b && isDigitB c && isDigitB d then
        some rest
      else none
  | _ => none

/-- Leap-year rule used by Go's `daysIn`. -/
def isLeap (y : Nat) : Bool := y % 4 = 0 && (y % 100 ≠ 0 || y % 400 = 0)

/-- Days in a month (Go's `daysIn`). -/
def daysIn (m y : Nat) : Nat :=
  if m = 2 then (if isLeap y then 29 else 28)
  else if m = 4 || m = 6 || m = 9 || m = 11 then 30
  else 31

/-- The wall-clock fields `time.Parse` yields (the parsed components). -/
structure GoDateTime where
  year : Nat
  month : Nat
  day : Nat
  hour : Nat
  minute : Nat
  second : Nat
  deriving DecidableEq, Repr

/-- Go's range validation: month and day post-loop, hour/minute/second at
parse time. -/
def validDateTime (dt : GoDateTime) : Bool :=
  1 ≤ dt.month && dt.month ≤ 12 && 1 ≤ dt.day && dt.day ≤ daysIn dt.month dt.year &&
  dt.hour ≤ 23 && dt.minute ≤ 59 && dt.second ≤ 59

/-- `time.Parse("2006-01-02T15:04:05-0700", s)` with fractional seconds
accepted after the seconds element; the whole input must be consumed. -/
def parseFull (s : GoStr) : Option GoDateTime := do
  let (y, s) ← getYear4 s
  let s ← expectByte 45 s
  let (mo, s) ← getnum true s
  let s ← expectByte 45 s
  let (d, s) ← getnum true s
  let s ← expectByte 84 s
  let (h, s) ← getnum false s
  let s ← expectByte 58 s
  let (mi, s) ← getnum true s
  let s ← expectByte 58 s
  let (sec, s) ← getnum true s
  let s := dropFrac s
  let s ← parseZone s
  if s = [] then
    let dt : GoDateTime := ⟨y, mo, d, h, mi, sec⟩
    if validDateTime dt then some dt else none
  else none

/-- `time.Parse("2006-01-02", s)`; the whole input must be consumed. -/
def parseBare (s : GoStr) : Option GoDateTime := do
  let (y, s) ← getYear4 s
  let s ← expectByte 45 s
  let (mo, s) ← getnum true s
  let s ← expectByte 45 s
  let (d, s) ← getnum true s
  if s = [] then
    let dt : GoDateTime := ⟨y, mo, d, 0, 0, 0⟩
    if validDateTime dt then some dt else none
  else none

/-- `strings.Trim(string(b), "\"")`: strip all leading and trailing
double-quote bytes. -/
def trimQuotes (s : GoStr) : GoStr :=
  ((s.dropWhile (· = 34)).reverse.dropWhile (· = 34)).reverse

/-- `Date.UnmarshalJSON` from src/api.go: dispatch on `bytes.Contains(b,
[]byte("T"))`, trim quotes, parse with the selected layout, wrap a parse
failure in a decode error. -/
def dateUnmarshalJSON (b : GoStr) : Except GoStr GoDateTime :=
  match (if b.contains 84 then parseFull (trimQuotes b) else parseBare (trimQuotes b)) with
  | some d => .ok d
  | none => .error (gs "Cannot unmarshal Date value")

end GoJira

namespace GoJira

example : dateUnmarshalJSON (gs "\"2018-05-16T23:55:39.246+0300\"") =
    .ok ⟨2018, 5, 16, 23, 55, 39⟩ := rfl

example : dateUnmarshalJSON (gs "\"2018-10-18\"") = .ok ⟨2018, 10, 18, 0, 0, 0⟩ := rfl

end GoJira

namespace GoJira

/-! ## IssueFields.UnmarshalJSON (src/api.go lines 985-1024; earlier
revision src/unnamed/part_005 lines 830-868) and CustomFieldsStore
(src/api.go lines 1029-1040).

The generic `json.Unmarshal(b, &f.Custom)` step is modelled by its result:
either an error or the key → raw-fragment association produced by the JSON
object parse.  The loop itself is modelled further below with the residual
map as explicit, mutable state, since the `knownFields` construction
registers the `Custom` field itself (tag `json:"-"`) and a produced key
`-` therefore decodes into the residual map. -/

/-- `nullBytes` from src/api.go. -/
def nullBytes : GoStr := gs "null"

/-- The reserved custom-field prefix (`strings.HasPrefix(key, "customfield_")`). -/
def customFieldPrefix : GoStr := gs "customfield_"

/-- The `json:"..."` tags of the `IssueFields` struct (src/api.go lines
227-270), in declaration order; the `Custom` field carries `json:"-"`. -/
def issueFieldsTags : List GoStr :=
  [gs "timespent", gs "timeestimate", gs "timeoriginalestimate",
   gs "aggregatetimespent", gs "aggregatetimeestimate",
   gs "aggregatetimeoriginalestimate", gs "workratio", gs "summary",
   gs "description", gs "environment", gs "created", gs "duedate",
   gs "lastViewed", gs "resolutiondate", gs "updated", gs "creator",
   gs "reporter", gs "assignee", gs "aggregateprogress", gs "progress",
   gs "issuetype", gs "parent", gs "project", gs "resolution",
   gs "timetracking", gs "watches", gs "priority", gs "comment",
   gs "worklog", gs "votes", gs "status", gs "security", gs "labels",
   gs "components", gs "attachment", gs "subtasks", gs "versions",
   gs "fixVersions", gs "issuelinks", gs "-"]

/-- The known-field wire names: `readField(tag, 0, ',')` over every struct
field, as in the `knownFields` construction of `IssueFields.UnmarshalJSON`. -/
def issueFieldsKnown : List GoStr := issueFieldsTags.map (fun t => readField t 0 44)

/-- Errors `CustomFieldsStore.Unmarshal` can return: the `errors.New`
"does not exist" value, or an error from `json.Unmarshal` (a distinct
dynamic type in Go, hence a distinct constructor). -/
inductive StoreErr where
  | notFound (msg : GoStr)
  | decodeFailed (e : GoStr)
  deriving DecidableEq, Repr

/-- `CustomFieldsStore.Has`: `s[name] != nil`. -/
def storeHas (s : List (GoStr × GoStr)) (name : GoStr) : Bool :=
  (s.lookup name).isSome

/-- `CustomFieldsStore.Unmarshal`: the "does not exist" error when the name
is absent, otherwise `json.Unmarshal` of the stored fragment into the
target (modelled by the caller-supplied decoder for the target type). -/
def storeUnmarshal (decode : GoStr → Except GoStr Unit)
    (s : List (GoStr × GoStr)) (name : GoStr) : Except StoreErr Unit :=
  match s.lookup name with
  | none =>
      .error (.notFound (gs "Custom field with name " ++ name ++ gs " does not exist"))
  | some chunk =>
      match decode chunk with
      | .error e => .error (.decodeFailed e)
      | .ok _ => .ok ()

end GoJira

namespace GoJira

/-! ## Encoder lemmas -/

theorem paramsToQuery_single (tag : GoStr) (v : FieldValue) :
    paramsToQuery [(tag, v)] = (fieldChunk tag v).map List.dropLast := by
  simp only [paramsToQuery, paramsToQueryAux]
  cases h : fieldChunk tag v with
  | none => rfl
  | some c =>
      by_cases hc : c = []
      · subst hc; rfl
      · simp [hc]

theorem foldl_append_ne_nil (g : GoStr → GoStr) :
    ∀ (l : List GoStr) (acc : GoStr), acc ≠ [] →
      l.foldl (fun r v => r ++ g v) acc ≠ [] := by
  intro l
  induction l with
  | nil => intro acc h; simpa using h
  | cons v rest ih =>
      intro acc h
      simp only [List.foldl_cons]
      exact ih _ (fun hh => h (List.append_eq_nil.mp hh).1)

theorem formatSlice_isSome (tag : GoStr) (l : List GoStr) (h : l ≠ []) :
    ∃ r, formatSlice tag l = some r := by
  unfold formatSlice
  cases hu : hasTagOption tag _OPTION_UNWRAP with
  | false =>
      have hinit : getTagName tag ++ gs "=" ≠ [] := fun hh =>
        absurd (List.append_eq_nil.mp hh).2 (by decide)
      refine ⟨_, if_neg ?_⟩
      intro hh
      exact foldl_append_ne_nil (fun v => esc v ++ gs ",") l
        (getTagName tag ++ gs "=") hinit hh
  | true =>
      cases l with
      | nil => exact absurd rfl h
      | cons v rest =>
          have hacc : getTagName tag ++ gs "=" ++ esc v ++ gs "&" ≠ [] := fun hh =>
            absurd (List.append_eq_nil.mp hh).2 (by decide)
          refine ⟨_, if_neg ?_⟩
          intro hh
          exact foldl_append_ne_nil
            (fun w => getTagName tag ++ gs "=" ++ esc w ++ gs "&") rest
            (getTagName tag ++ gs "=" ++ esc v ++ gs "&") hacc hh

theorem fieldChunk_isSome (tag : GoStr) (v : FieldValue) :
    ∃ c, fieldChunk tag v = some c := by
  cases v with
  | str s => exact ⟨_, rfl⟩
  | int i => exact ⟨_, rfl⟩
  | bool b => exact ⟨_, rfl⟩
  | time t => exact ⟨_, rfl⟩
  | strList l =>
      by_cases hl : l.length > 0
      · obtain ⟨r, hr⟩ := formatSlice_isSome tag l (by
          intro hh; subst hh; exact absurd hl (by decide))
        exact ⟨r ++ gs "&", by simp [fieldChunk, hl, hr]⟩
      · exact ⟨[], by simp [fieldChunk, hl]⟩

theorem paramsToQueryAux_isSome :
    ∀ (fields : List (GoStr × FieldValue)) (acc : GoStr),
      ∃ r, paramsToQueryAux acc fields = some r := by
  intro fields
  induction fields with
  | nil => exact fun acc => ⟨acc, rfl⟩
  | cons f rest ih =>
      intro acc
      obtain ⟨c, hc⟩ := fieldChunk_isSome f.1 f.2
      obtain ⟨r, hr⟩ := ih (acc ++ c)
      exact ⟨r, by simp only [paramsToQueryAux, hc, hr]⟩

/-- C10: `paramsToQuery` is total — no `result[:len(result)-1]` slice is
ever taken on an empty string. `formatSlice` succeeds on every non-empty
sequence (`value.Len() > 0` is the only way it is invoked), and the final
trim in `paramsToQuery` is guarded, so encoding any record made of the
five supported semantic types cannot panic. -/
theorem paramsToQuery_c10 :
    (∀ fields : List (GoStr × FieldValue), ∃ q, paramsToQuery fields = some q)
    ∧ (∀ (tag : GoStr) (l : List GoStr), l ≠ [] → ∃ r, formatSlice tag l = some r) := by
  constructor
  · intro fields
    obtain ⟨r, hr⟩ := paramsToQueryAux_isSome fields []
    refine ⟨if r = [] then [] else r.dropLast, ?_⟩
    unfold paramsToQuery
    rw [hr]
    by_cases h : r = [] <;> simp [h]
  · exact formatSlice_isSome

/-- Witness for C10 at concrete records covering the plain, unwrapped and
scalar field forms. -/
theorem paramsToQuery_c10_witness :
    (∃ q, paramsToQuery
        [(gs "fields,unwrap", .strList [gs "a", gs "b"]),
         (gs "jql", .str (gs "x")),
         (gs "startAt", .int 0)] = some q)
    ∧ (∃ r, formatSlice (gs "expand") [gs "x,y"] = some r) :=
  ⟨paramsToQuery_c10.1 _, paramsToQuery_c10.2 (gs "expand") [gs "x,y"] (by decide)⟩

/-- C6: encoding of a boolean field: with `invert-boolean` (`reverse`) set
and a true value the pair is `name=false`; otherwise true gives
`name=true`; false gives `name=false` exactly when `respect` is set and
nothing otherwise. The name is always the tag's wire name. -/
theorem boolField_c6 (tag : GoStr) (b : Bool) :
    paramsToQuery [(tag, .bool b)] =
      some (if hasTagOption tag _OPTION_REVERSE && b then getTagName tag ++ gs "=false"
            else if b then getTagName tag ++ gs "=true"
            else if hasTagOption tag _OPTION_RESPECT then getTagName tag ++ gs "=false"
            else []) := by
  rw [paramsToQuery_single]
  simp only [fieldChunk]
  have e1 : gs "=false&" = gs "=false" ++ [38] := rfl
  have e2 : gs "=true&" = gs "=true" ++ [38] := rfl
  split_ifs <;> simp [e1, e2, ← List.append_assoc]

/-- C5 is refuted on the code: for a text field whose tag carries a flag,
the non-empty branch emits the raw tag (flag included), not the wire name;
only the empty-with-`respect` branch strips the flag. At tag
`query,respect` with value `ABCD` the code produces `query,respect=ABCD`
where the claim requires `query=ABCD`. -/
theorem stringFieldTagName_bug :
    paramsToQuery [(gs "query,respect", .str (gs "ABCD"))] = some (gs "query,respect=ABCD")
    ∧ getTagName (gs "query,respect") = gs "query"
    ∧ paramsToQuery [(gs "query,respect", .str [])] = some (gs "query=")
    ∧ gs "query,respect=ABCD" ≠ gs "query=ABCD" := by decide

end GoJira

namespace GoJira

/-- Emission of one field: its chunk with the trailing `&` removed; `none`
when the field contributes nothing. -/
def fieldEmission (tag : GoStr) (v : FieldValue) : Option GoStr :=
  match fieldChunk tag v with
  | none => none
  | some c => if c = [] then none else some c.dropLast

/-- Per-field emissions of a record, in declaration order. -/
def emissions (fields : List (GoStr × FieldValue)) : List GoStr :=
  fields.filterMap (fun f => fieldEmission f.1 f.2)

/-- A field at its zero value whose tag does not carry the `respect` flag. -/
def isZeroNoRespect (tag : GoStr) : FieldValue → Bool
  | .str s => !hasTagOption tag _OPTION_RESPECT && s.isEmpty
  | .int i => !hasTagOption tag _OPTION_RESPECT && i == 0
  | .bool b => !hasTagOption tag _OPTION_RESPECT && !b
  | .time t => !hasTagOption tag _OPTION_RESPECT && t.isZero
  | .strList l => !hasTagOption tag _OPTION_RESPECT && l.isEmpty

theorem fieldChunk_shape (tag : GoStr) (v : FieldValue) (c : GoStr)
    (h : fieldChunk tag v = some c) : c = [] ∨ ∃ e, c = e ++ [38] := by
  cases v with
  | str s =>
      simp only [fieldChunk, Option.some.injEq] at h
      subst h
      split_ifs
      · exact Or.inr ⟨_, rfl⟩
      · exact Or.inr ⟨getTagName tag ++ gs "=", (List.append_assoc _ (gs "=") [38]).symm⟩
      · exact Or.inl rfl
  | int i =>
      simp only [fieldChunk, Option.some.injEq] at h
      subst h
      split_ifs
      · exact Or.inr ⟨_, rfl⟩
      · exact Or.inr ⟨getTagName tag ++ gs "=0", (List.append_assoc _ (gs "=0") [38]).symm⟩
      · exact Or.inl rfl
  | bool b =>
      simp only [fieldChunk, Option.some.injEq] at h
      subst h
      split_ifs
      · exact Or.inr ⟨getTagName tag ++ gs "=false", (List.append_assoc _ (gs "=false") [38]).symm⟩
      · exact Or.inr ⟨getTagName tag ++ gs "=true", (List.append_assoc _ (gs "=true") [38]).symm⟩
      · exact Or.inr ⟨getTagName tag ++ gs "=false", (List.append_assoc _ (gs "=false") [38]).symm⟩
      · exact Or.inl rfl
  | time t =>
      simp only [fieldChunk, Option.some.injEq] at h
      subst h
      split_ifs
      · exact Or.inr ⟨_, rfl⟩
      · exact Or.inl rfl
  | strList l =>
      simp only [fieldChunk] at h
      split_ifs at h
      · cases hf : formatSlice tag l with
        | none => rw [hf] at h; cases h
        | some r =>
            rw [hf] at h
            simp only [Option.map_some', Option.some.injEq] at h
            subst h
            exact Or.inr ⟨r, rfl⟩
      · simp only [Option.some.injEq] at h
        exact Or.inl h.symm

theorem paramsToQueryAux_flatten :
    ∀ (fields : List (GoStr × FieldValue)) (acc r : GoStr),
      paramsToQueryAux acc fields = some r →
      r = acc ++ ((emissions fields).map (fun e => e ++ [38])).flatten := by
  intro fields
  induction fields with
  | nil =>
      intro acc r h
      simp only [paramsToQueryAux, Option.some.injEq] at h
      simp [emissions, ← h]
  | cons f rest ih =>
      intro acc r h
      simp only [paramsToQueryAux] at h
      cases hc : fieldChunk f.1 f.2 with
      | none => rw [hc] at h; cases h
      | some c =>
          rw [hc] at h
          have hr := ih (acc ++ c) r h
          rcases fieldChunk_shape f.1 f.2 c hc with hnil | ⟨e, he⟩
          · subst hnil
            have hem : fieldEmission f.1 f.2 = none := by
              simp [fieldEmission, hc]
            simp only [emissions, List.filterMap_cons, hem] at hr ⊢
            simpa using hr
          · subst he
            have hem : fieldEmission f.1 f.2 = some e := by
              simp [fieldEmission, hc]
            simp only [emissions, List.filterMap_cons, hem, List.map_cons,
              List.flatten_cons] at hr ⊢
            rw [hr]
            simp [List.append_assoc]

theorem flatten_concat_dropLast {α : Type} (sep : α) :
    ∀ es : List (List α),
      ((es.map (fun e => e ++ [sep])).flatten).dropLast = List.intercalate [sep] es
  | [] => rfl
  | [e] => by simp [List.intercalate]
  | e :: e2 :: rest => by
      have ih := flatten_concat_dropLast sep (e2 :: rest)
      simp only [List.map_cons, List.flatten_cons] at ih ⊢
      have hne : e2 ++ [sep] ++ (List.map (fun e => e ++ [sep]) rest).flatten ≠ [] := by
        simp
      rw [List.dropLast_append_of_ne_nil _ hne, ih]
      simp [List.intercalate, List.append_assoc]

theorem zeroNoRespect_emission (tag : GoStr) (v : FieldValue)
    (h : isZeroNoRespect tag v = true) : fieldEmission tag v = none := by
  cases v with
  | str s =>
      simp only [isZeroNoRespect, Bool.and_eq_true, Bool.not_eq_true',
        List.isEmpty_iff] at h
      simp [fieldEmission, fieldChunk, h.1, h.2]
  | int i =>
      simp only [isZeroNoRespect, Bool.and_eq_true, Bool.not_eq_true',
        beq_iff_eq] at h
      simp [fieldEmission, fieldChunk, h.1, h.2]
  | bool b =>
      simp only [isZeroNoRespect, Bool.and_eq_true, Bool.not_eq_true'] at h
      simp [fieldEmission, fieldChunk, h.1, h.2]
  | time t =>
      simp only [isZeroNoRespect, Bool.and_eq_true] at h
      simp [fieldEmission, fieldChunk, h.1, h.2]
  | strList l =>
      simp only [isZeroNoRespect, Bool.and_eq_true, List.isEmpty_iff] at h
      simp [fieldEmission, fieldChunk, h.2]

/-- C1: a successful `paramsToQuery` joins the per-field emissions with `&`
in declaration order, skipping fields that emit nothing, and a record all
of whose fields are zero-valued without `respect` flags yields `""`. -/
theorem paramsToQuery_c1 (fields : List (GoStr × FieldValue)) (q : GoStr)
    (h : paramsToQuery fields = some q) :
    q = List.intercalate (gs "&") (emissions fields)
    ∧ ((∀ p ∈ fields, isZeroNoRespect p.1 p.2 = true) → q = []) := by
  have hamp : gs "&" = [38] := rfl
  have hq : q = List.intercalate (gs "&") (emissions fields) := by
    unfold paramsToQuery at h
    cases hr : paramsToQueryAux [] fields with
    | none =>
        rw [hr] at h
        exact absurd (h : (none : Option GoStr) = some q) (by simp)
    | some r =>
        rw [hr] at h
        have h2 : (if r = [] then some ([] : GoStr) else some r.dropLast) = some q := h
        have hflat := paramsToQueryAux_flatten fields [] r hr
        rw [List.nil_append] at hflat
        by_cases hnil : r = []
        · rw [if_pos hnil] at h2
          cases h2
          subst hnil
          cases hem : emissions fields with
          | nil => simp [hem, List.intercalate]
          | cons e es =>
              exfalso
              rw [hem] at hflat
              simp only [List.map_cons, List.flatten_cons] at hflat
              exact absurd ((List.append_eq_nil.mp
                ((List.append_eq_nil.mp hflat.symm).1)).2) (by decide)
        · rw [if_neg hnil] at h2
          cases h2
          rw [hflat, flatten_concat_dropLast, hamp]
  refine ⟨hq, fun hz => ?_⟩
  have hem : emissions fields = [] := by
    simp only [emissions, List.filterMap_eq_nil_iff]
    exact fun p hp => zeroNoRespect_emission p.1 p.2 (hz p hp)
  rw [hq, hem]
  rfl

/-- Witness for C1: the join equality at a three-field record (the zero
`int` field emits nothing), and the all-zero record encoding to `""`. -/
theorem paramsToQuery_c1_witness :
    gs "expand=test1%2Ctest2&jql=ABCD" =
      List.intercalate (gs "&")
        (emissions [(gs "expand", .strList [gs "test1,test2"]),
                    (gs "jql", .str (gs "ABCD")),
                    (gs "maxResults", .int 0)])
    ∧ paramsToQuery [(gs "jql", .str []), (gs "startAt", .int 0)] = some [] :=
  ⟨(paramsToQuery_c1
      [(gs "expand", .strList [gs "test1,test2"]),
       (gs "jql", .str (gs "ABCD")),
       (gs "maxResults", .int 0)]
      (gs "expand=test1%2Ctest2&jql=ABCD") (by decide)).1,
   by decide⟩

end GoJira

namespace GoJira

/-! ## Comma-join round trip (C4) -/

theorem hexUpper_ne_comma (n : Nat) : hexUpper n ≠ 44 := by
  unfold hexUpper
  split_ifs <;> omega

theorem esc_ne_comma (e : GoStr) : 44 ∉ esc e := by
  intro h
  obtain ⟨a, _, hmem⟩ := List.mem_flatMap.mp h
  revert hmem
  unfold escByte
  split_ifs with hu h32
  · intro hm
    rw [List.mem_singleton] at hm
    subst hm
    exact absurd hu (by decide)
  · intro hm
    rw [List.mem_singleton] at hm
    exact absurd hm (by decide)
  · intro hm
    simp only [List.mem_cons, List.mem_singleton, List.not_mem_nil, or_false] at hm
    rcases hm with hm | hm | hm
    · exact absurd hm (by decide)
    · exact absurd hm.symm (hexUpper_ne_comma _)
    · exact absurd hm.symm (hexUpper_ne_comma _)

theorem foldl_append_flatten (g : GoStr → GoStr) :
    ∀ (l : List GoStr) (acc : GoStr),
      l.foldl (fun r v => r ++ g v) acc = acc ++ (l.map g).flatten := by
  intro l
  induction l with
  | nil => intro acc; simp
  | cons v rest ih =>
      intro acc
      simp only [List.foldl_cons, List.map_cons, List.flatten_cons, ih,
        List.append_assoc]

theorem hexVal_hexUpper (n : Nat) (h : n < 16) : hexVal (hexUpper n) = n := by
  unfold hexVal hexUpper
  split_ifs <;> omega

theorem unesc_cons_plain (c : Nat) (t : GoStr) (h37 : c ≠ 37) (h43 : c ≠ 43) :
    unesc (c :: t) = c :: unesc t := by
  match t with
  | [] => simp [unesc, h43]
  | [a] => simp [unesc, h43]
  | a :: b :: t2 => simp [unesc, h37, h43]

theorem unesc_cons_plus (t : GoStr) : unesc (43 :: t) = 32 :: unesc t := by
  match t with
  | [] => simp [unesc]
  | [a] => simp [unesc]
  | a :: b :: t2 => simp [unesc]

theorem unesc_cons_pct (h1 h2 : Nat) (t : GoStr) :
    unesc (37 :: h1 :: h2 :: t) = (hexVal h1 * 16 + hexVal h2) :: unesc t := by
  simp [unesc]

theorem unesc_esc (e : GoStr) (h : ∀ c ∈ e, c < 256) : unesc (esc e) = e := by
  induction e with
  | nil => rfl
  | cons c e' ih =>
      have hc : c < 256 := h c (List.mem_cons_self c e')
      have ih' := ih (fun x hx => h x (List.mem_cons_of_mem _ hx))
      show unesc (escByte c ++ esc e') = c :: e'
      by_cases hu : isUnreservedQ c
      · have h37 : c ≠ 37 := fun hh => absurd hu (by rw [hh]; decide)
        have h43 : c ≠ 43 := fun hh => absurd hu (by rw [hh]; decide)
        rw [escByte, if_pos hu, List.singleton_append, unesc_cons_plain c _ h37 h43, ih']
      · by_cases h32 : c = 32
        · subst h32
          rw [escByte, if_neg hu, if_pos rfl, List.singleton_append,
            unesc_cons_plus, ih']
        · rw [escByte, if_neg hu, if_neg h32]
          simp only [List.cons_append, List.nil_append]
          rw [unesc_cons_pct, ih']
          congr 1
          rw [hexVal_hexUpper _ (by omega), hexVal_hexUpper _ (by omega)]
          omega

theorem formatSlice_eq_comma (tag : GoStr) (l : List GoStr) (hne : l ≠ [])
    (hnu : hasTagOption tag _OPTION_UNWRAP = false) :
    formatSlice tag l =
      some (getTagName tag ++ gs "=" ++ List.intercalate (gs ",") (l.map esc)) := by
  obtain ⟨x, l', rfl⟩ := List.exists_cons_of_ne_nil hne
  have hcm : gs "," = [44] := rfl
  simp only [formatSlice, hnu, Bool.not_false, if_pos, Bool.false_eq_true, if_false,
    if_true]
  rw [foldl_append_flatten (fun v => esc v ++ gs ",")]
  have hmm : (x :: l').map (fun v => esc v ++ gs ",") =
      ((x :: l').map esc).map (fun e => e ++ [44]) := by
    rw [List.map_map]; rfl
  rw [hmm]
  have hflat_ne : (((x :: l').map esc).map (fun e => e ++ [44])).flatten ≠ [] := by
    simp
  have hres_ne : getTagName tag ++ gs "=" ++
      (((x :: l').map esc).map (fun e => e ++ [44])).flatten ≠ [] := fun hh =>
    absurd (List.append_eq_nil.mp hh).2 hflat_ne
  rw [if_neg hres_ne, List.dropLast_append_of_ne_nil _ hflat_ne,
    flatten_concat_dropLast, hcm]

/-- C4: for a non-empty, non-unwrapped sequence field, `formatSlice` emits
one `name=` pair with the escaped elements comma-joined; since `esc`
escapes every comma inside an element, splitting the value on `,` and
percent-unescaping each piece recovers the original element list. -/
theorem formatSlice_c4 (tag : GoStr) (elems : List GoStr)
    (hne : elems ≠ []) (hnu : hasTagOption tag _OPTION_UNWRAP = false)
    (hbytes : ∀ e ∈ elems, ∀ c ∈ e, c < 256) :
    formatSlice tag elems =
      some (getTagName tag ++ gs "=" ++ List.intercalate (gs ",") (elems.map esc))
    ∧ (List.intercalate (gs ",") (elems.map esc)).splitOn 44 = elems.map esc
    ∧ ((List.intercalate (gs ",") (elems.map esc)).splitOn 44).map unesc = elems := by
  have hcm : gs "," = [44] := rfl
  have hsplit : (List.intercalate (gs ",") (elems.map esc)).splitOn 44 = elems.map esc := by
    rw [hcm]
    exact List.splitOn_intercalate (elems.map esc) 44
      (fun l hl => by
        obtain ⟨e, _, rfl⟩ := List.mem_map.mp hl
        exact esc_ne_comma e)
      (by simpa using hne)
  refine ⟨formatSlice_eq_comma tag elems hne hnu, hsplit, ?_⟩
  rw [hsplit, List.map_map]
  have : elems.map (unesc ∘ esc) = elems.map id :=
    List.map_congr_left (fun e he => unesc_esc e (hbytes e he))
  rw [this, List.map_id]

/-- Witness for C4 at the test-suite input `Expand = ["test1,test2"]`. -/
theorem formatSlice_c4_witness :
    formatSlice (gs "expand") [gs "test1,test2"] = some (gs "expand=test1%2Ctest2")
    ∧ ((gs "test1%2Ctest2").splitOn 44).map unesc = [gs "test1,test2"] := by
  have h := formatSlice_c4 (gs "expand") [gs "test1,test2"]
    (by decide) (by decide) (by decide)
  refine ⟨h.1.trans (by decide), ?_⟩
  have h3 := h.2.2
  have he : List.intercalate (gs ",") ([gs "test1,test2"].map esc) =
      gs "test1%2Ctest2" := by decide
  rwa [he] at h3

end GoJira

namespace GoJira

/-- C3: `Date.UnmarshalJSON` strips surrounding quotes and parses with the
full zone-offset layout (fractional seconds accepted) when the raw value
contains `T`, with the bare-date layout otherwise; the two spec examples
evaluate as stated, a parse failure of the selected layout is returned as
a wrapped decode error, and every success comes from the selected layout. -/
theorem dateUnmarshal_c3 :
    dateUnmarshalJSON (gs "\"2018-05-16T23:55:39.246+0300\"") =
      .ok ⟨2018, 5, 16, 23, 55, 39⟩
    ∧ dateUnmarshalJSON (gs "\"2018-10-18\"") = .ok ⟨2018, 10, 18, 0, 0, 0⟩
    ∧ (∀ b : GoStr,
        (if b.contains 84 then parseFull (trimQuotes b)
         else parseBare (trimQuotes b)) = none →
        dateUnmarshalJSON b = .error (gs "Cannot unmarshal Date value"))
    ∧ (∀ (b : GoStr) (d : GoDateTime), dateUnmarshalJSON b = .ok d →
        (if b.contains 84 then parseFull (trimQuotes b)
         else parseBare (trimQuotes b)) = some d) := by
  refine ⟨rfl, rfl, ?_, ?_⟩
  · intro b h
    unfold dateUnmarshalJSON
    rw [h]
  · intro b d h
    unfold dateUnmarshalJSON at h
    cases hp : (if b.contains 84 then parseFull (trimQuotes b)
                else parseBare (trimQuotes b)) with
    | none =>
        rw [hp] at h
        exact absurd (h : (Except.error (gs "Cannot unmarshal Date value") :
          Except GoStr GoDateTime) = .ok d) (by simp)
    | some d2 =>
        rw [hp] at h
        have h2 : (Except.ok d2 : Except GoStr GoDateTime) = .ok d := h
        injection h2 with h3
        rw [h3]

/-- Witness for C3: a bare-date value with an out-of-range month is
rejected with the decode error. -/
theorem dateUnmarshal_c3_witness :
    dateUnmarshalJSON (gs "\"2018-13-40\"") = .error (gs "Cannot unmarshal Date value") :=
  dateUnmarshal_c3.2.2.1 (gs "\"2018-13-40\"") (by decide)

/-- C8: `CustomFieldsStore.Unmarshal` fails with the "does not exist"
condition exactly when the name is absent (equivalently `Has` is false);
a present entry whose fragment fails to decode yields a decode error,
which is never the not-found condition. -/
theorem storeUnmarshal_c8 (decode : GoStr → Except GoStr Unit)
    (s : List (GoStr × GoStr)) (name : GoStr) :
    ((∃ m, storeUnmarshal decode s name = .error (.notFound m)) ↔ s.lookup name = none)
    ∧ (storeHas s name = false ↔ s.lookup name = none)
    ∧ (∀ chunk e, s.lookup name = some chunk → decode chunk = .error e →
        storeUnmarshal decode s name = .error (.decodeFailed e)
        ∧ ∀ m, (StoreErr.decodeFailed e) ≠ .notFound m) := by
  refine ⟨?_, ?_, ?_⟩
  · constructor
    · rintro ⟨m, hm⟩
      cases hl : s.lookup name with
      | none => rfl
      | some chunk =>
          simp only [storeUnmarshal, hl] at hm
          cases hd : decode chunk with
          | error e => simp [hd] at hm
          | ok u => simp [hd] at hm
    · intro hl
      refine ⟨gs "Custom field with name " ++ name ++ gs " does not exist", ?_⟩
      simp only [storeUnmarshal, hl]
  · unfold storeHas
    cases hl : s.lookup name <;> simp
  · intro chunk e hl hd
    refine ⟨by simp only [storeUnmarshal, hl, hd], ?_⟩
    intro m hm
    cases hm

/-- Witness for C8: a present-but-undecodable entry gives the decode
error, and `Has` is false on an absent name. -/
theorem storeUnmarshal_c8_witness :
    storeUnmarshal (fun _ => .error (gs "type mismatch"))
      [(gs "customfield_10700", gs "\"TEST123\"")] (gs "customfield_10700") =
      .error (.decodeFailed (gs "type mismatch"))
    ∧ storeHas [(gs "customfield_10700", gs "\"TEST123\"")] (gs "customfield_10498") = false :=
  ⟨((storeUnmarshal_c8 (fun _ => .error (gs "type mismatch"))
      [(gs "customfield_10700", gs "\"TEST123\"")] (gs "customfield_10700")).2.2
      (gs "\"TEST123\"") (gs "type mismatch") rfl rfl).1,
   by decide⟩

end GoJira

namespace GoJira

/-! ## The decode loop of IssueFields.UnmarshalJSON, with the residual map
as mutable state (src/api.go lines 1003-1021; earlier revision
src/unnamed/part_005 lines 851-865).

The `knownFields` construction (src/api.go lines 989-995) registers every
struct field under the first comma-token of its `json` tag — including the
`Custom` field itself, whose tag is `json:"-"`.  A produced key `-`
therefore selects the `Custom` field, and its per-field decode
`json.Unmarshal(chunk, field.Addr().Interface())` writes through into
`f.Custom`: per encoding/json, unmarshalling an object into a non-nil map
keeps the existing entries and adds or overwrites the fragment's keys,
and unmarshalling the literal `null` leaves the value untouched.  Decoding
of any other known field touches only that field and is modelled by a
caller-supplied `decodeField`; parsing a raw fragment as a JSON object (the
`-` merge) is modelled by a caller-supplied `parseObj`.

Go's `range` over a map produces entries in an unspecified order, each
with its value at production time; entries deleted before being reached
are not produced, and entries created during the iteration may be produced
or skipped (Go spec, "For statements").  A run of the loop is therefore
parameterized by a schedule, the list of keys produced in order.  Any
duplicate-free schedule containing every key of the initial map describes
a legal complete iteration: initial entries are only ever deleted when
produced, so each is still present at its turn; a scheduled key that is
not present is skipped without effect; and keys inserted by a `-` merge
may lawfully appear later in the schedule or not at all. -/

/-- State of the decode loop: the residual map `f.Custom` and the known
fields successfully assigned so far (wire name, raw fragment), in
production order. -/
structure LoopState where
  cust : List (GoStr × GoStr)
  assigned : List (GoStr × GoStr)
  deriving DecidableEq, Repr

/-- Go's `delete(m, key)` on the association map. -/
def eraseKey (m : List (GoStr × GoStr)) (k : GoStr) : List (GoStr × GoStr) :=
  m.filter (fun p => decide (p.1 ≠ k))

/-- Insert-or-overwrite of one key: one entry of a `json.Unmarshal` merge
into a non-nil map. -/
def setKey (m : List (GoStr × GoStr)) (k v : GoStr) : List (GoStr × GoStr) :=
  if (m.lookup k).isSome then m.map (fun p => if p.1 = k then (k, v) else p)
  else m ++ [(k, v)]

/-- Merge a parsed object fragment into the map, in fragment order
(`json.Unmarshal` into a non-nil map keeps existing entries and
overwrites duplicated keys). -/
def mergeObj (m : List (GoStr × GoStr)) : List (GoStr × GoStr) → List (GoStr × GoStr)
  | [] => m
  | (k, v) :: rest => mergeObj (setKey m k v) rest

/-- The wire name the `Custom` field is registered under:
`readField("-", 0, ',') = "-"`. -/
def dashName : GoStr := gs "-"

/-- One produced entry of the later-revision loop: a known key is decoded
into its field — for the `Custom` field (wire name `-`) this merges the
fragment's keys into the residual map itself — and deleted on success; an
unknown key without the custom prefix is deleted; an unknown prefixed key
with a `null` fragment is deleted; any other unknown prefixed key is kept.
A key no longer present is not produced. -/
def visitKeyV2 (decodeField : GoStr → GoStr → Except GoStr Unit)
    (parseObj : GoStr → Except GoStr (List (GoStr × GoStr)))
    (st : LoopState) (key : GoStr) : Except GoStr LoopState :=
  match st.cust.lookup key with
  | none => .ok st
  | some chunk =>
      if issueFieldsKnown.contains key then
        if key = dashName then
          if chunk = nullBytes then .ok ⟨eraseKey st.cust key, st.assigned⟩
          else
            match parseObj chunk with
            | .error e => .error e
            | .ok kvs => .ok ⟨eraseKey (mergeObj st.cust kvs) key, st.assigned⟩
        else
          match decodeField key chunk with
          | .error e => .error e
          | .ok _ => .ok ⟨eraseKey st.cust key, st.assigned ++ [(key, chunk)]⟩
      else if !customFieldPrefix.isPrefixOf key then
        .ok ⟨eraseKey st.cust key, st.assigned⟩
      else if chunk = nullBytes then
        .ok ⟨eraseKey st.cust key, st.assigned⟩
      else .ok st

/-- One produced entry of the earlier-revision loop: identical except that
unknown prefixed keys are kept even when their fragment is `null`. -/
def visitKeyV1 (decodeField : GoStr → GoStr → Except GoStr Unit)
    (parseObj : GoStr → Except GoStr (List (GoStr × GoStr)))
    (st : LoopState) (key : GoStr) : Except GoStr LoopState :=
  match st.cust.lookup key with
  | none => .ok st
  | some chunk =>
      if issueFieldsKnown.contains key then
        if key = dashName then
          if chunk = nullBytes then .ok ⟨eraseKey st.cust key, st.assigned⟩
          else
            match parseObj chunk with
            | .error e => .error e
            | .ok kvs => .ok ⟨eraseKey (mergeObj st.cust kvs) key, st.assigned⟩
        else
          match decodeField key chunk with
          | .error e => .error e
          | .ok _ => .ok ⟨eraseKey st.cust key, st.assigned ++ [(key, chunk)]⟩
      else if !customFieldPrefix.isPrefixOf key then
        .ok ⟨eraseKey st.cust key, st.assigned⟩
      else .ok st

/-- Run the later-revision loop along a schedule; an error aborts the call
at once, as in the source. -/
def runLoopV2 (decodeField : GoStr → GoStr → Except GoStr Unit)
    (parseObj : GoStr → Except GoStr (List (GoStr × GoStr))) :
    List GoStr → LoopState → Except GoStr LoopState
  | [], st => .ok st
  | k :: ks, st =>
      match visitKeyV2 decodeField parseObj st k with
      | .error e => .error e
      | .ok st2 => runLoopV2 decodeField parseObj ks st2

/-- Run the earlier-revision loop along a schedule. -/
def runLoopV1 (decodeField : GoStr → GoStr → Except GoStr Unit)
    (parseObj : GoStr → Except GoStr (List (GoStr × GoStr))) :
    List GoStr → LoopState → Except GoStr LoopState
  | [], st => .ok st
  | k :: ks, st =>
      match visitKeyV1 decodeField parseObj st k with
      | .error e => .error e
      | .ok st2 => runLoopV1 decodeField parseObj ks st2

/-- Later-revision `IssueFields.UnmarshalJSON` as a run over a schedule: a
failed generic object parse is returned as-is, otherwise the loop starts
from the parsed entries with no assignments. -/
def issueFieldsExecV2 (decodeField : GoStr → GoStr → Except GoStr Unit)
    (parseObj : GoStr → Except GoStr (List (GoStr × GoStr)))
    (parsed : Except GoStr (List (GoStr × GoStr)))
    (schedule : List GoStr) : Except GoStr LoopState :=
  match parsed with
  | .error e => .error e
  | .ok entries => runLoopV2 decodeField parseObj schedule ⟨entries, []⟩

/-- Earlier-revision `IssueFields.UnmarshalJSON` as a run over a schedule. -/
def issueFieldsExecV1 (decodeField : GoStr → GoStr → Except GoStr Unit)
    (parseObj : GoStr → Except GoStr (List (GoStr × GoStr)))
    (parsed : Except GoStr (List (GoStr × GoStr)))
    (schedule : List GoStr) : Except GoStr LoopState :=
  match parsed with
  | .error e => .error e
  | .ok entries => runLoopV1 decodeField parseObj schedule ⟨entries, []⟩

/-- A schedule describing a legal complete `range` iteration over the
initial map: duplicate-free and producing every initially present key. -/
def validSchedule (entries : List (GoStr × GoStr)) (schedule : List GoStr) : Prop :=
  schedule.Nodup ∧ ∀ p ∈ entries, p.1 ∈ schedule

end GoJira

namespace GoJira

/-- Fragment parse used by the residual counterexample: the JSON object
`{"customfield_1":5}` parses to the single raw entry `customfield_1 → 5`;
any other fragment is treated as malformed. -/
def parseObjC2 (c : GoStr) : Except GoStr (List (GoStr × GoStr)) :=
  if c = gs "\x7b\"customfield_1\":5\x7d" then .ok [(gs "customfield_1", gs "5")]
  else .error (gs "json: cannot unmarshal value into Go value of type map[string]json.RawMessage")

/-- The parsed input object `{"-":{"customfield_1":5}}`. -/
def entriesC2 : List (GoStr × GoStr) := [(gs "-", gs "\x7b\"customfield_1\":5\x7d")]

/-- C2 fails on the code: the `Custom` field's own wire name `-` is a
known field (`knownFields["-"]` is the residual map itself), so decoding
the object `{"-":{"customfield_1":5}}` merges `customfield_1` into the
residual map.  Both legal iteration orders — producing the inserted key or
skipping it — return success with residual `{customfield_1: 5}`, although
`customfield_1` is not a key of the input object; the claim's exact
characterization of the residual therefore does not hold of the program. -/
theorem issueFieldsResidual_dashAlias :
    issueFieldsKnown.contains (gs "-") = true
    ∧ validSchedule entriesC2 [gs "-", gs "customfield_1"]
    ∧ validSchedule entriesC2 [gs "-"]
    ∧ issueFieldsExecV2 (fun _ _ => .ok ()) parseObjC2 (.ok entriesC2)
        [gs "-", gs "customfield_1"] =
        .ok ⟨[(gs "customfield_1", gs "5")], []⟩
    ∧ issueFieldsExecV2 (fun _ _ => .ok ()) parseObjC2 (.ok entriesC2) [gs "-"] =
        .ok ⟨[(gs "customfield_1", gs "5")], []⟩
    ∧ gs "customfield_1" ∉ entriesC2.map Prod.fst :=
  ⟨by decide, ⟨by decide, by decide⟩, ⟨by decide, by decide⟩, rfl, rfl, by decide⟩

/-- Fragment parse used by the abort counterexample: `{"timespent":7200}`
parses to the raw entry `timespent → 7200`. -/
def parseObjC7 (c : GoStr) : Except GoStr (List (GoStr × GoStr)) :=
  if c = gs "\x7b\"timespent\":7200\x7d" then .ok [(gs "timespent", gs "7200")]
  else .error (gs "json: cannot unmarshal value into Go value of type map[string]json.RawMessage")

/-- Per-field decode used by the abort counterexample: the `timespent`
field is a Go `int`, so the fragment `7200` decodes and the string
fragment `"x"` fails with a type error, as `json.Unmarshal` does. -/
def decodeFieldC7 (k c : GoStr) : Except GoStr Unit :=
  if k = gs "timespent" ∧ c = gs "7200" then .ok ()
  else .error (gs "json: cannot unmarshal string into Go value of type int")

/-- The parsed input object `{"timespent":"\"x\"","-":{"timespent":7200}}`. -/
def entriesC7 : List (GoStr × GoStr) :=
  [(gs "timespent", gs "\"x\""), (gs "-", gs "\x7b\"timespent\":7200\x7d")]

/-- C7 fails on the code: on `{"timespent":"\"x\"","-":{"timespent":7200}}`
the iteration order decides the outcome. Producing `-` first merges
`timespent → 7200` over the unparseable fragment, and the call succeeds
with `TimeSpent` populated; producing `timespent` first returns the
per-field type error.  Both schedules are legal, so the decode does not
always abort when a known field's input fragment cannot be parsed. -/
theorem issueFieldsAbort_dashAlias :
    (gs "timespent", gs "\"x\"") ∈ entriesC7
    ∧ issueFieldsKnown.contains (gs "timespent") = true
    ∧ decodeFieldC7 (gs "timespent") (gs "\"x\"") =
        .error (gs "json: cannot unmarshal string into Go value of type int")
    ∧ validSchedule entriesC7 [gs "-", gs "timespent"]
    ∧ validSchedule entriesC7 [gs "timespent", gs "-"]
    ∧ issueFieldsExecV2 decodeFieldC7 parseObjC7 (.ok entriesC7)
        [gs "-", gs "timespent"] =
        .ok ⟨[], [(gs "timespent", gs "7200")]⟩
    ∧ issueFieldsExecV2 decodeFieldC7 parseObjC7 (.ok entriesC7)
        [gs "timespent", gs "-"] =
        .error (gs "json: cannot unmarshal string into Go value of type int") :=
  ⟨by decide, by decide, rfl, ⟨by decide, by decide⟩, ⟨by decide, by decide⟩, rfl, rfl⟩

/-- Fragment parse used by the revision-comparison counterexample:
`{"foo":1}` parses to the raw entry `foo → 1`. -/
def parseObjC9 (c : GoStr) : Except GoStr (List (GoStr × GoStr)) :=
  if c = gs "\x7b\"foo\":1\x7d" then .ok [(gs "foo", gs "1")]
  else .error (gs "json: cannot unmarshal value into Go value of type map[string]json.RawMessage")

/-- The parsed input object `{"-":{"foo":1}}`. -/
def entriesC9 : List (GoStr × GoStr) := [(gs "-", gs "\x7b\"foo\":1\x7d")]

/-- C9 fails on the code: both revisions register `-` as a known wire
name, and a key inserted by the `-` merge may be produced or skipped by
the ongoing `range` (Go spec).  On `{"-":{"foo":1}}` legal executions of
the earlier revision end with residual `{foo: 1}` while legal executions
of the later revision end with `{}` — and the matching schedules swap the
outcomes, so even two executions of one revision disagree.  Removing the
`null`-valued entries from `{foo: 1}` leaves `{foo: 1}`, so the two
revisions' results differ by more than null-filtering. -/
theorem issueFieldsRevisions_dashAlias :
    validSchedule entriesC9 [gs "-"]
    ∧ validSchedule entriesC9 [gs "-", gs "foo"]
    ∧ issueFieldsExecV1 (fun _ _ => .ok ()) parseObjC9 (.ok entriesC9) [gs "-"] =
        .ok ⟨[(gs "foo", gs "1")], []⟩
    ∧ issueFieldsExecV2 (fun _ _ => .ok ()) parseObjC9 (.ok entriesC9)
        [gs "-", gs "foo"] = .ok ⟨[], []⟩
    ∧ issueFieldsExecV2 (fun _ _ => .ok ()) parseObjC9 (.ok entriesC9) [gs "-"] =
        .ok ⟨[(gs "foo", gs "1")], []⟩
    ∧ issueFieldsExecV1 (fun _ _ => .ok ()) parseObjC9 (.ok entriesC9)
        [gs "-", gs "foo"] = .ok ⟨[], []⟩
    ∧ [(gs "foo", gs "1")].filter (fun p => decide (p.2 ≠ nullBytes)) =
        [(gs "foo", gs "1")]
    ∧ ([(gs "foo", gs "1")] : List (GoStr × GoStr)) ≠ [] :=
  ⟨⟨by decide, by decide⟩, ⟨by decide, by decide⟩, rfl, rfl, rfl, rfl, by decide, by decide⟩

end GoJira
